import Mathlib

/-!
Verification development for `call_tracker_app_real.py` (Mohan4learning/track).

The file shallow-embeds the polling-and-logging engine of the source:
string helpers mirroring the Python string operations the source uses
(`strip`, `lower`, `in`, `replace`, `int`), the three backing files
(link registry, per-link CSV event files, heartbeat file), the page
probe `track_once`, and the scheduler loop `background_tracker`.

File I/O is modelled by an explicit `FileState`: Python's `open` on an
existing file can raise an OS error, which the source never guards, so a
file is `absent`, `present lines`, or `unreadable` (exists but `open`
raises).  Fallible code returns `Except Unit`.
-/

/-- Strings are modelled as lists of characters. -/
abbrev Str := List Char

/-- Whitespace stripped by Python `str.strip()` (the ASCII whitespace
characters; exotic Unicode space code points are not modelled). -/
def pySpace (c : Char) : Bool :=
  c == ' ' || c == '\t' || c == '\n' || c == '\r' || c == '\x0b' || c == '\x0c'

/-- Leading-whitespace removal, as in Python `str.lstrip()`. -/
def stripLeft (s : Str) : Str := s.dropWhile pySpace

/-- Trailing-whitespace removal, as in Python `str.rstrip()`. -/
def stripRight (s : Str) : Str := (s.reverse.dropWhile pySpace).reverse

/-- Python `str.strip()`. -/
def pyStrip (s : Str) : Str := stripRight (stripLeft s)

/-- Python `str.lower()` (character-wise case folding via `Char.toLower`). -/
def pyLower (s : Str) : Str := s.map Char.toLower

/-- Python substring test `needle in hay`. -/
def isSubstr (needle hay : Str) : Bool :=
  hay.tails.any fun t => needle.isPrefixOf t

/-- Fuel-indexed worker for Python `str.replace`: scan left to right,
replacing non-overlapping occurrences of `pat`.  The fuel is only a
termination device; `pyReplace` supplies enough of it. -/
def pyReplaceFuel (pat rep : Str) : Nat → Str → Str
  | _, [] => []
  | 0, s => s
  | fuel + 1, c :: cs =>
    if pat.isPrefixOf (c :: cs) && !pat.isEmpty then
      rep ++ pyReplaceFuel pat rep fuel (cs.drop (pat.length - 1))
    else
      c :: pyReplaceFuel pat rep fuel cs

/-- Python `s.replace(pat, rep)` for nonempty `pat` (the source only uses
the patterns `"://"` and `"/"`; the empty-pattern behaviour of Python is
not modelled). -/
def pyReplace (s pat rep : Str) : Str := pyReplaceFuel pat rep s.length s

/-- Value of a list of ASCII digits. -/
def digitsVal (ds : Str) : Nat :=
  ds.foldl (fun a c => a * 10 + (c.toNat - ('0').toNat)) 0

/-- Python `int(s)` on a text line, modelled for ASCII decimal forms:
surrounding whitespace is stripped, an optional sign is accepted, and the
remainder must be a nonempty digit string (underscore digit grouping and
Unicode digits are not modelled). -/
def pyInt? (s : Str) : Option Int :=
  match pyStrip s with
  | [] => none
  | '-' :: ds =>
    if !ds.isEmpty && ds.all Char.isDigit then some (-(digitsVal ds : Int)) else none
  | '+' :: ds =>
    if !ds.isEmpty && ds.all Char.isDigit then some (digitsVal ds) else none
  | ds =>
    if ds.all Char.isDigit then some (digitsVal ds) else none

/-- State of one backing file as the Python code observes it:
`absent` (`os.path.exists` is false), `present lines` (readable, with the
given line contents, without their trailing newlines), or `unreadable`
(`os.path.exists` is true but `open` raises an OS error — a case the
source never guards). -/
inductive FileState where
  | absent
  | present (lines : List Str)
  | unreadable
deriving DecidableEq

/-- The lines the file contributes when opened for append: an absent file
is created empty, a present file keeps its lines. -/
def FileState.linesOrEmpty : FileState → List Str
  | .present lines => lines
  | _ => []

/-- Model of `write_heartbeat` (source lines 29-31): the file is rewritten
with `f"{count}\n{last_poll}\n"`.  The scheduler's `last_poll` comes from
`strftime` and contains no newline, so the file holds exactly two lines. -/
def write_heartbeat (count : Nat) (last_poll : Str) : FileState :=
  .present [(Nat.repr count).data, last_poll]

/-- Model of `read_heartbeat` (source lines 33-43).  Absence is checked
with `os.path.exists`; the `try` block covers only `int(lines[0])` and
`lines[1].strip()` (so parse errors and missing lines degrade to
`(0, None)`), while `open` itself is outside every guard. -/
def read_heartbeat : FileState → Except Unit (Int × Option Str)
  | .absent => .ok (0, none)
  | .unreadable => .error ()
  | .present lines =>
    match lines with
    | l0 :: l1 :: _ =>
      match pyInt? l0 with
      | some n => .ok (n, some (pyStrip l1))
      | none => .ok (0, none)
    | _ => .ok (0, none)

/-- The single built-in default link (source lines 50-52). -/
def DEFAULT_LINK : Str :=
  "https://www.astroyogi.com/astrologer/expert/saalivaagana.aspx".data

/-- Model of `load_links` (source lines 45-52): if the file exists it is
read and each line is stripped, lines stripping to empty are dropped;
otherwise the default list is returned.  `open` on an existing but
unreadable file raises, unguarded. -/
def load_links : FileState → Except Unit (List Str)
  | .absent => .ok [DEFAULT_LINK]
  | .unreadable => .error ()
  | .present lines => .ok ((lines.map pyStrip).filter fun l => !l.isEmpty)

/-- Model of the sidebar add-link handler (source lines 133-139): the raw
input `new` is tested against the loaded (stripped) list; when absent,
`new.strip() + "\n"` is appended to the backing file (created if it did
not exist).  The handler only runs on nonempty text-field input, and the
single-line text field admits no embedded newline. -/
def add_link (new : Str) (f : FileState) : Except Unit FileState :=
  match load_links f with
  | .error e => .error e
  | .ok links =>
    if new ∈ links then .ok f
    else .ok (.present (f.linesOrEmpty ++ [pyStrip new]))

/-- One CSV data row as written by `append_log` (source lines 62-66). -/
structure Row where
  datetime : Str
  Available_For_Call : Int
  On_Call : Int
deriving DecidableEq

/-- A per-link CSV event file: a header line and the data rows, in file
order. -/
structure CSV where
  header : List Str
  rows : List Row
deriving DecidableEq

/-- The header `append_log` creates a fresh file with (source line 61). -/
def CSV_COLUMNS : List Str :=
  [("datetime").data, ("Available_For_Call").data, ("On_Call").data]

/-- Model of `append_log` (source lines 54-68): read the existing CSV (or
start an empty frame with the fixed columns), append one row with
`int(call_vis)`, `int(joinq_vis)`, and rewrite the file.  The
pandas round trip is modelled logically: the file is its header and its
rows. -/
def append_log (now : Str) (call_vis joinq_vis : Bool) (file : Option CSV) : CSV :=
  let df : CSV :=
    match file with
    | some csv => csv
    | none => { header := CSV_COLUMNS, rows := [] }
  { df with
    rows := df.rows ++ [{ datetime := now
                        , Available_For_Call := if call_vis then 1 else 0
                        , On_Call := if joinq_vis then 1 else 0 }] }

/-- Model of the URL-to-filename encoding used by `append_log` (lines
56-57) and the dashboard read path (lines 146-147):
`url.replace("://", "_").replace("/", "_") + ".csv"`. -/
def safe_filename (url : Str) : Str :=
  pyReplace (pyReplace url (("://").data) (("_").data)) (("/").data) (("_").data)
    ++ (".csv").data

/-- What the browser environment does for one probe of one URL.
`setupRaise` is an exception while building the driver session (source
lines 71-76, before the `try`); `navRaise`, `waitRaise` and
`extractRaise` are exceptions inside the `try` (navigation, the bounded
wait — including its timeout —, and element enumeration / text reads);
`elements labels` is a successful wait yielding buttons with the given
text labels. -/
inductive ProbeOutcome where
  | setupRaise
  | navRaise
  | waitRaise
  | extractRaise
  | elements (labels : List Str)
deriving DecidableEq

/-- Model of `track_once` (source lines 70-96).  Exceptions inside the
`try` are caught and become the failure value `(None, None)`, modelled as
`.ok none`; an exception while creating the session happens before the
`try` and propagates, modelled as `.error ()`.  On success each button's
text is stripped then lowercased, and the two flags are the logical OR
over the buttons of the substring tests `"call" in txt` and
`"join q" in txt or "joinq" in txt`. -/
def track_once (env : ProbeOutcome) : Except Unit (Option (Bool × Bool)) :=
  match env with
  | .setupRaise => .error ()
  | .navRaise => .ok none
  | .waitRaise => .ok none
  | .extractRaise => .ok none
  | .elements labels =>
    let found_call := labels.any fun btn => isSubstr (("call").data) (pyLower (pyStrip btn))
    let found_joinq := labels.any fun btn =>
      isSubstr (("join q").data) (pyLower (pyStrip btn))
        || isSubstr (("joinq").data) (pyLower (pyStrip btn))
    .ok (some (found_call, found_joinq))

/-- The event store: per-filename CSV contents (`none` = file absent). -/
abbrev Store := Str → Option CSV

/-- Rewrite one file of the store. -/
def Store.update (s : Store) (k : Str) (v : CSV) : Store :=
  fun k2 => if k2 = k then some v else s k2

/-- One iteration of the per-link body of the scheduler loop (source
lines 102-107): probe the URL; on a contained failure print a warning and
skip; on success append one row to that link's CSV file. -/
def process_link (env : ProbeOutcome) (now : Str) (url : Str) (store : Store) :
    Except Unit Store :=
  match track_once env with
  | .error e => .error e
  | .ok none => .ok store
  | .ok (some (call_vis, joinq_vis)) =>
    .ok (store.update (safe_filename url)
          (append_log now call_vis joinq_vis (store (safe_filename url))))

/-- The environment of one scheduler cycle: the probe outcome per URL,
the clock value `datetime.now()` read inside `append_log` per URL, and
the clock value read for the heartbeat at cycle completion. -/
structure CycleEnv where
  probe : Str → ProbeOutcome
  rowTime : Str → Str
  pollTime : Str

/-- The `for url in links` loop of `background_tracker` (source lines
102-107), processing the links strictly sequentially in registry order.
An uncaught exception propagates (the loop body has no guard). -/
def run_links (probe : Str → ProbeOutcome) (rowTime : Str → Str) :
    List Str → Store → Except Unit Store
  | [], store => .ok store
  | url :: rest, store =>
    match process_link (probe url) (rowTime url) url store with
    | .error e => .error e
    | .ok store2 => run_links probe rowTime rest store2

/-- The full state the scheduler touches: the event store, the heartbeat
file, and the link registry file. -/
structure SchedState where
  store : Store
  heartbeat : FileState
  linksFile : FileState

/-- One iteration of the `while True` loop of `background_tracker`
(source lines 100-112): reload the registry, process every link, then
increment the in-memory counter and write the heartbeat once.  Nothing in
the loop is guarded, so any uncaught exception aborts the whole loop. -/
def background_cycle (env : CycleEnv) (count : Nat) (st : SchedState) :
    Except Unit (SchedState × Nat) :=
  match load_links st.linksFile with
  | .error e => .error e
  | .ok links =>
    match run_links env.probe env.rowTime links st.store with
    | .error e => .error e
    | .ok store2 =>
      .ok ({ st with store := store2
                   , heartbeat := write_heartbeat (count + 1) env.pollTime }, count + 1)

/-- A finite prefix of the scheduler loop: run one cycle per entry of
`envs`, threading the in-memory counter and the state, and trace the
heartbeat writes `(count, pollTime)` in order. -/
def run_cycles (envs : List CycleEnv) (count : Nat) (st : SchedState) :
    Except Unit (SchedState × Nat × List (Nat × Str)) :=
  match envs with
  | [] => .ok (st, count, [])
  | e :: rest =>
    match background_cycle e count st with
    | .error err => .error err
    | .ok (st2, count2) =>
      match run_cycles rest count2 st2 with
      | .error err => .error err
      | .ok (st3, c3, writes) => .ok (st3, c3, (count2, e.pollTime) :: writes)

/-- Model of `background_tracker` (source lines 98-112): the in-memory
cycle counter starts at 0 on every process start; the persisted heartbeat
is never read back. -/
def background_tracker (envs : List CycleEnv) (st : SchedState) :
    Except Unit (SchedState × Nat × List (Nat × Str)) :=
  run_cycles envs 0 st

/-- The character map performed by the second `replace` of the filename
encoding: every slash becomes an underscore. -/
def subSlash (c : Char) : Char := if c = '/' then '_' else c

/-- The probe failures that the source catches and converts to the
`(None, None)` failure value: exceptions raised inside the `try` block of
`track_once` (navigation, the bounded wait including its timeout, and
extraction). -/
def CaughtFailure (e : ProbeOutcome) : Prop :=
  e = .navRaise ∨ e = .waitRaise ∨ e = .extractRaise

/-- A concrete cycle environment for instantiating the scheduler
theorems: every probe hits the wait timeout and every clock read yields
the string "t". -/
def demoEnv : CycleEnv :=
  { probe := fun _ => .waitRaise, rowTime := fun _ => [], pollTime := ("t").data }

/-- A concrete fresh scheduler state: empty event store, no heartbeat
file yet, no registry file. -/
def demoState : SchedState :=
  { store := fun _ => none, heartbeat := .absent, linksFile := .absent }

/-- A concrete state at process restart whose persisted heartbeat still
records five completed cycles from the previous run. -/
def demoStateStale : SchedState :=
  { store := fun _ => none
  , heartbeat := .present [("5").data, ("x").data]
  , linksFile := .absent }

/-! ### Helper lemmas -/

theorem isPrefixOf_iff (a b : Str) : a.isPrefixOf b = true ↔ ∃ t, a ++ t = b := by
  induction a generalizing b with
  | nil => simp [List.isPrefixOf]
  | cons c cs ih =>
    cases b with
    | nil => simp [List.isPrefixOf]
    | cons d ds =>
      simp only [List.isPrefixOf, Bool.and_eq_true, beq_iff_eq, ih]
      constructor
      · rintro ⟨rfl, t, rfl⟩; exact ⟨t, rfl⟩
      · rintro ⟨t, h⟩
        injection h with h1 h2
        exact ⟨h1, t, h2⟩

theorem isSubstr_iff (n h : Str) : isSubstr n h = true ↔ ∃ l r, l ++ n ++ r = h := by
  simp only [isSubstr, List.any_eq_true, List.mem_tails]
  constructor
  · rintro ⟨t, ⟨l, rfl⟩, hp⟩
    obtain ⟨r, rfl⟩ := (isPrefixOf_iff n t).mp hp
    exact ⟨l, r, by simp⟩
  · rintro ⟨l, r, rfl⟩
    exact ⟨n ++ r, ⟨l, by simp⟩, (isPrefixOf_iff n (n ++ r)).mpr ⟨r, rfl⟩⟩

theorem pyReplaceFuel_congr (pat rep : Str) :
    ∀ (f1 : Nat) (s : Str) (f2 : Nat), s.length ≤ f1 → s.length ≤ f2 →
      pyReplaceFuel pat rep f1 s = pyReplaceFuel pat rep f2 s := by
  intro f1
  induction f1 with
  | zero =>
    intro s f2 h1 _
    have hs : s = [] := List.eq_nil_of_length_eq_zero (Nat.le_zero.mp h1)
    subst hs
    cases f2 <;> rfl
  | succ f ih =>
    intro s f2 h1 h2
    cases s with
    | nil => cases f2 <;> rfl
    | cons c cs =>
      cases f2 with
      | zero => simp at h2
      | succ f2 =>
        simp only [pyReplaceFuel]
        simp only [List.length_cons, Nat.succ_le_succ_iff] at h1 h2
        by_cases hp : (pat.isPrefixOf (c :: cs) && !pat.isEmpty) = true
        · rw [if_pos hp, if_pos hp]
          have hd : (cs.drop (pat.length - 1)).length ≤ cs.length := by
            simp [List.length_drop]
          exact congrArg (rep ++ ·) (ih _ _ (le_trans hd h1) (le_trans hd h2))
        · rw [if_neg hp, if_neg hp]
          exact congrArg (c :: ·) (ih _ _ h1 h2)

theorem pyReplace_cons (pat rep : Str) (c : Char) (cs : Str) :
    pyReplace (c :: cs) pat rep =
      if pat.isPrefixOf (c :: cs) && !pat.isEmpty then
        rep ++ pyReplace (cs.drop (pat.length - 1)) pat rep
      else
        c :: pyReplace cs pat rep := by
  show pyReplaceFuel pat rep (cs.length + 1) (c :: cs) = _
  simp only [pyReplaceFuel]
  by_cases hp : (pat.isPrefixOf (c :: cs) && !pat.isEmpty) = true
  · rw [if_pos hp, if_pos hp]
    have hd : (cs.drop (pat.length - 1)).length ≤ cs.length := by simp [List.length_drop]
    exact congrArg (rep ++ ·) (pyReplaceFuel_congr pat rep _ _ _ hd le_rfl)
  · rw [if_neg hp, if_neg hp]
    rfl

theorem pyReplace_head_match (p : Char) (ps v rep : Str) :
    pyReplace ((p :: ps) ++ v) (p :: ps) rep = rep ++ pyReplace v (p :: ps) rep := by
  have hpre : (p :: ps).isPrefixOf ((p :: ps) ++ v) = true :=
    (isPrefixOf_iff _ _).mpr ⟨v, rfl⟩
  rw [List.cons_append, pyReplace_cons]
  simp only [hpre, List.isEmpty_cons, Bool.not_false, Bool.and_true, if_true]
  simp [List.drop_left ps v]

theorem pyReplace_skip (p : Char) (ps rep : Str) (c : Char) (cs : Str) (hc : c ≠ p) :
    pyReplace (c :: cs) (p :: ps) rep = c :: pyReplace cs (p :: ps) rep := by
  rw [pyReplace_cons]
  have : (p :: ps).isPrefixOf (c :: cs) = false := by
    simp [List.isPrefixOf]
    intro h; exact absurd h.symm hc
  simp [this]

theorem pyReplace_prepend (p : Char) (ps rep u w : Str) (hu : ∀ c ∈ u, c ≠ p) :
    pyReplace (u ++ w) (p :: ps) rep = u ++ pyReplace w (p :: ps) rep := by
  induction u with
  | nil => simp
  | cons c cs ih =>
    have hc : c ≠ p := hu c (by simp)
    rw [List.cons_append, pyReplace_skip p ps rep c (cs ++ w) hc,
      ih (fun x hx => hu x (by simp [hx]))]
    rfl

theorem pyReplace_no_occ (p : Char) (ps rep s : Str) (hs : ∀ c ∈ s, c ≠ p) :
    pyReplace s (p :: ps) rep = s := by
  have h := pyReplace_prepend p ps rep s [] hs
  have h0 : pyReplace [] (p :: ps) rep = [] := rfl
  rw [List.append_nil, h0, List.append_nil] at h
  exact h

theorem pyReplace_single (a b : Char) (s : Str) :
    pyReplace s [a] [b] = s.map (fun c => if c = a then b else c) := by
  induction s with
  | nil => rfl
  | cons c cs ih =>
    rw [pyReplace_cons]
    by_cases hc : c = a
    · subst hc
      have : [c].isPrefixOf (c :: cs) = true := by simp [List.isPrefixOf]
      simp [this, ih]
    · have : [a].isPrefixOf (c :: cs) = false := by
        simp [List.isPrefixOf]
        intro h; exact absurd h.symm hc
      simp [this, ih, hc]

theorem safe_filename_split (s r : Str)
    (hs : ∀ c ∈ s, c ≠ ':' ∧ c ≠ '/' ∧ c ≠ '_')
    (hr : ∀ c ∈ r, c ≠ ':') :
    safe_filename (s ++ ("://").data ++ r) =
      s ++ '_' :: r.map subSlash ++ (".csv").data := by
  have hsep : (("://").data : Str) = ':' :: ['/', '/'] := rfl
  have step1 : pyReplace (s ++ ("://").data ++ r) (("://").data) (("_").data)
      = s ++ '_' :: r := by
    rw [hsep, List.append_assoc,
      pyReplace_prepend ':' ['/', '/'] (("_").data) s _ (fun c hc => (hs c hc).1),
      pyReplace_head_match ':' ['/', '/'] r (("_").data),
      pyReplace_no_occ ':' ['/', '/'] (("_").data) r hr]
    rfl
  have hslash : (("/").data : Str) = ['/'] := rfl
  have hund : (("_").data : Str) = ['_'] := rfl
  show pyReplace (pyReplace (s ++ ("://").data ++ r) (("://").data) (("_").data))
      (("/").data) (("_").data) ++ (".csv").data = _
  rw [step1, hslash, hund, pyReplace_single '/' '_' (s ++ '_' :: r)]
  have hmap : (s ++ '_' :: r).map (fun c => if c = '/' then '_' else c)
      = s ++ '_' :: r.map subSlash := by
    rw [List.map_append]
    have hs' : s.map (fun c => if c = '/' then '_' else c) = s := by
      have := List.map_congr_left (l := s)
        (f := fun c => if c = '/' then '_' else c) (g := id)
        (fun a ha => by simp [(hs a ha).2.1])
      simpa using this
    rw [hs']
    simp [subSlash]
  rw [hmap]

theorem split_at_underscore (s1 s2 m1 m2 : Str)
    (h1 : ∀ c ∈ s1, c ≠ '_') (h2 : ∀ c ∈ s2, c ≠ '_')
    (h : s1 ++ '_' :: m1 = s2 ++ '_' :: m2) : s1 = s2 ∧ m1 = m2 := by
  induction s1 generalizing s2 with
  | nil =>
    cases s2 with
    | nil => simpa using h
    | cons d ds =>
      simp only [List.nil_append, List.cons_append, List.cons.injEq] at h
      exact absurd h.1.symm (h2 d (by simp))
  | cons c cs ih =>
    cases s2 with
    | nil =>
      simp only [List.nil_append, List.cons_append, List.cons.injEq] at h
      exact absurd h.1 (h1 c (by simp))
    | cons d ds =>
      simp only [List.cons_append, List.cons.injEq] at h
      obtain ⟨rfl, h⟩ := h
      obtain ⟨rfl, rfl⟩ := ih ds (fun x hx => h1 x (List.mem_cons_of_mem _ hx))
        (fun x hx => h2 x (List.mem_cons_of_mem _ hx)) h
      exact ⟨rfl, rfl⟩

theorem map_subSlash_inj (r1 r2 : Str)
    (h1 : ∀ c ∈ r1, c ≠ '_') (h2 : ∀ c ∈ r2, c ≠ '_')
    (h : r1.map subSlash = r2.map subSlash) : r1 = r2 := by
  induction r1 generalizing r2 with
  | nil => cases r2 with
    | nil => rfl
    | cons d ds => simp at h
  | cons c cs ih =>
    cases r2 with
    | nil => simp at h
    | cons d ds =>
      simp only [List.map_cons, List.cons.injEq] at h
      obtain ⟨hcd, h⟩ := h
      have hc : c ≠ '_' := h1 c (by simp)
      have hd : d ≠ '_' := h2 d (by simp)
      have : c = d := by
        by_cases hcs : c = '/'
        · by_cases hds : d = '/'
          · rw [hcs, hds]
          · exfalso
            rw [hcs] at hcd
            simp [subSlash, hds] at hcd
            exact hd hcd.symm
        · by_cases hds : d = '/'
          · exfalso
            rw [hds] at hcd
            simp [subSlash, hcs] at hcd
            exact hc hcd
          · simpa [subSlash, hcs, hds] using hcd
      subst this
      rw [ih ds (fun x hx => h1 x (List.mem_cons_of_mem _ hx))
        (fun x hx => h2 x (List.mem_cons_of_mem _ hx)) h]

theorem process_link_caught (e : ProbeOutcome) (h : CaughtFailure e)
    (now url : Str) (store : Store) :
    track_once e = .ok none ∧ process_link e now url store = .ok store := by
  rcases h with rfl | rfl | rfl <;> exact ⟨rfl, rfl⟩

theorem process_link_ok (e : ProbeOutcome) (he : e ≠ .setupRaise)
    (now url : Str) (store : Store) :
    ∃ s2, process_link e now url store = .ok s2 := by
  cases e with
  | setupRaise => exact absurd rfl he
  | navRaise => exact ⟨store, rfl⟩
  | waitRaise => exact ⟨store, rfl⟩
  | extractRaise => exact ⟨store, rfl⟩
  | elements labels => exact ⟨_, rfl⟩

theorem run_links_append (probe : Str → ProbeOutcome) (rt : Str → Str)
    (l1 l2 : List Str) (store : Store) :
    run_links probe rt (l1 ++ l2) store =
      match run_links probe rt l1 store with
      | .error e => .error e
      | .ok s2 => run_links probe rt l2 s2 := by
  induction l1 generalizing store with
  | nil => rfl
  | cons u us ih =>
    simp only [List.cons_append, run_links]
    cases process_link (probe u) (rt u) u store with
    | error e => rfl
    | ok s2 => exact ih s2

theorem run_links_total (probe : Str → ProbeOutcome) (rt : Str → Str)
    (links : List Str) (h : ∀ u ∈ links, probe u ≠ .setupRaise) :
    ∀ store, ∃ s2, run_links probe rt links store = .ok s2 := by
  induction links with
  | nil => exact fun store => ⟨store, rfl⟩
  | cons u us ih =>
    intro store
    obtain ⟨s2, hs2⟩ := process_link_ok (probe u) (h u (by simp)) (rt u) u store
    obtain ⟨s3, hs3⟩ := ih (fun x hx => h x (List.mem_cons_of_mem _ hx)) s2
    exact ⟨s3, by simp only [run_links, hs2, hs3]⟩

theorem background_cycle_ok (e : CycleEnv) (k : Nat) (st st2 : SchedState) (c2 : Nat)
    (h : background_cycle e k st = .ok (st2, c2)) :
    c2 = k + 1 ∧ st2.heartbeat = write_heartbeat (k + 1) e.pollTime := by
  unfold background_cycle at h
  split at h
  · cases h
  · split at h
    · cases h
    · injection h with h
      injection h with h1 h2
      subst h1; subst h2
      exact ⟨rfl, rfl⟩

theorem run_cycles_spec (envs : List CycleEnv) :
    ∀ (k : Nat) (st st' : SchedState) (c : Nat) (writes : List (Nat × Str)),
      run_cycles envs k st = .ok (st', c, writes) →
      writes.map Prod.fst = List.range' (k + 1) envs.length ∧
      writes.map Prod.snd = envs.map CycleEnv.pollTime ∧
      c = k + envs.length ∧
      st'.heartbeat = (match writes.getLast? with
        | some w => write_heartbeat w.1 w.2
        | none => st.heartbeat) := by
  induction envs with
  | nil =>
    intro k st st' c writes h
    simp only [run_cycles] at h
    injection h with h
    injection h with h1 h
    injection h with h2 h3
    subst h1; subst h2; subst h3
    simp [List.range']
  | cons e rest ih =>
    intro k st st' c writes h
    simp only [run_cycles] at h
    split at h
    · cases h
    · rename_i st2 count2 hb
      split at h
      · cases h
      · rename_i st3 c3 writes3 hr
        injection h with h
        injection h with h1 h
        injection h with h2 h3
        subst h1; subst h2; subst h3
        obtain ⟨hc2, hhb2⟩ := background_cycle_ok e k st st2 count2 hb
        subst hc2
        obtain ⟨ih1, ih2, ih3, ih4⟩ := ih (k + 1) st2 st3 c3 writes3 hr
        refine ⟨?_, ?_, ?_, ?_⟩
        · simp only [List.map_cons, ih1, List.length_cons]
          rw [List.range'_succ]
        · simp [ih2]
        · simp only [List.length_cons]
          omega
        · cases writes3 with
          | nil =>
            simp only [List.getLast?_singleton]
            simp only [List.getLast?_nil] at ih4
            rw [ih4, hhb2]
          | cons w ws =>
            rw [List.getLast?_cons_cons]
            cases hlw : (w :: ws).getLast? with
            | none => simp at hlw
            | some w2 => rw [hlw] at ih4; exact ih4

theorem background_cycle_heartbeat_irrelevant (e : CycleEnv) (k : Nat)
    (store : Store) (lf hb1 hb2 : FileState) :
    background_cycle e k ⟨store, hb1, lf⟩ = background_cycle e k ⟨store, hb2, lf⟩ := rfl

theorem run_cycles_heartbeat_irrelevant (e : CycleEnv) (rest : List CycleEnv) (k : Nat)
    (store : Store) (lf hb1 hb2 : FileState) :
    run_cycles (e :: rest) k ⟨store, hb1, lf⟩ = run_cycles (e :: rest) k ⟨store, hb2, lf⟩ := by
  simp only [run_cycles, background_cycle_heartbeat_irrelevant e k store lf hb1 hb2]

theorem dropWhile_idem (p : Char → Bool) (l : Str) :
    (l.dropWhile p).dropWhile p = l.dropWhile p := by
  induction l with
  | nil => rfl
  | cons c cs ih =>
    by_cases h : p c = true
    · simp [List.dropWhile_cons, h, ih]
    · simp [List.dropWhile_cons, h]

theorem stripRight_idem (l : Str) : stripRight (stripRight l) = stripRight l := by
  unfold stripRight
  rw [List.reverse_reverse, dropWhile_idem]

theorem stripRight_isPre (l : Str) : ∃ t, stripRight l ++ t = l := by
  have h1 : List.dropWhile pySpace l.reverse <:+ l.reverse := List.dropWhile_suffix pySpace
  have h2 : (stripRight l).reverse <:+ l.reverse := by
    unfold stripRight
    rw [List.reverse_reverse]
    exact h1
  exact List.reverse_suffix.mp h2

theorem head_dropWhile_false (p : Char → Bool) :
    ∀ (l : Str) (c : Char) (cs : Str), l.dropWhile p = c :: cs → p c = false := by
  intro l
  induction l with
  | nil => intro c cs h; cases h
  | cons a as ih =>
    intro c cs h
    by_cases ha : p a = true
    · rw [List.dropWhile_cons_of_pos ha] at h
      exact ih c cs h
    · rw [List.dropWhile_cons_of_neg ha] at h
      injection h with h1 _
      subst h1
      exact Bool.eq_false_iff.mpr ha

theorem stripLeft_eq_self (l : Str) (h : ∀ c cs, l = c :: cs → pySpace c = false) :
    stripLeft l = l := by
  cases l with
  | nil => rfl
  | cons c cs => simp [stripLeft, List.dropWhile_cons, h c cs rfl]

theorem pyStrip_idem (s : Str) : pyStrip (pyStrip s) = pyStrip s := by
  have hA : ∀ c cs, stripLeft s = c :: cs → pySpace c = false :=
    fun c cs h => head_dropWhile_false pySpace s c cs h
  obtain ⟨t2, ht2⟩ := stripRight_isPre (stripLeft s)
  have hB : ∀ c cs, stripRight (stripLeft s) = c :: cs → pySpace c = false := by
    intro c cs hc
    apply hA c (cs ++ t2)
    rw [← ht2, hc]
    rfl
  show stripRight (stripLeft (stripRight (stripLeft s))) = stripRight (stripLeft s)
  rw [stripLeft_eq_self _ hB, stripRight_idem]

/-! ### Claims -/

/-- C1, counterexample to the claim as stated: an exception while
creating the browser session is a failure while probing a link
(`track_once` raises), yet it aborts the whole cycle instead of being
skipped: the per-link loop and one full scheduler cycle end in the
propagated error. -/
theorem c1_counterexample :
    track_once .setupRaise = .error () ∧
    run_links (fun _ => ProbeOutcome.setupRaise) (fun _ => []) [("http://x").data]
      (fun _ => none) = .error () ∧
    background_cycle
      { probe := fun _ => ProbeOutcome.setupRaise, rowTime := fun _ => [], pollTime := [] } 0
      { store := fun _ => none, heartbeat := .absent
      , linksFile := .present [("http://x").data] } = .error () :=
  ⟨rfl, rfl, rfl⟩

/-- C1, amended: a probe failure raised inside `track_once`'s `try` block
(timeout or exception during navigation, waiting, or extraction) causes
that link to be skipped — the cycle over the remaining links is exactly
the cycle without the failed link — and, provided no link's probe raises
during session setup, the per-link loop of the cycle completes without
error. -/
theorem c1_amended_skip_and_continue (probe : Str → ProbeOutcome) (rt : Str → Str)
    (pre post : List Str) (url : Str) (store : Store)
    (hfail : CaughtFailure (probe url))
    (hok : ∀ u ∈ pre ++ post, probe u ≠ .setupRaise) :
    run_links probe rt (pre ++ url :: post) store = run_links probe rt (pre ++ post) store ∧
    ∃ s2, run_links probe rt (pre ++ post) store = .ok s2 := by
  constructor
  · rw [run_links_append, run_links_append]
    cases run_links probe rt pre store with
    | error e => rfl
    | ok s2 =>
      show run_links probe rt (url :: post) s2 = run_links probe rt post s2
      simp only [run_links, (process_link_caught _ hfail (rt url) url s2).2]
  · exact run_links_total probe rt (pre ++ post) hok store

/-- Witness for C1 at a concrete cycle: three links, the middle one's
probe times out. -/
theorem c1_witness :
    run_links (fun _ => ProbeOutcome.waitRaise) (fun _ => [])
      ([("a").data] ++ ("b").data :: [("c").data]) (fun _ => none) =
      run_links (fun _ => ProbeOutcome.waitRaise) (fun _ => [])
        ([("a").data] ++ [("c").data]) (fun _ => none) ∧
    ∃ s2, run_links (fun _ => ProbeOutcome.waitRaise) (fun _ => [])
      ([("a").data] ++ [("c").data]) (fun _ => none) = .ok s2 :=
  c1_amended_skip_and_continue (fun _ => ProbeOutcome.waitRaise) (fun _ => [])
    [("a").data] [("c").data] (("b").data) (fun _ => none)
    (Or.inr (Or.inl rfl)) (by decide)

/-- C2: a probe whose wait times out or that raises during navigation,
waiting, or extraction returns the failure value instead of throwing
(`track_once` yields `.ok none`), and the scheduler's per-link step then
leaves the event store completely unchanged — zero new rows for that
link and cycle. -/
theorem c2_failed_probe_no_rows (e : ProbeOutcome) (now url : Str) (store : Store)
    (h : CaughtFailure e) :
    track_once e = .ok none ∧ process_link e now url store = .ok store := by
  rcases h with rfl | rfl | rfl <;> exact ⟨rfl, rfl⟩

/-- Witness for C2 at the timeout outcome and an empty store. -/
theorem c2_witness :
    track_once .waitRaise = .ok none ∧
    process_link .waitRaise [] [] (fun _ => none) = .ok (fun _ => none) :=
  c2_failed_probe_no_rows .waitRaise [] [] (fun _ => none) (Or.inr (Or.inl rfl))

/-- C3: whenever a run of the scheduler completes its cycles, the traced
heartbeat writes are exactly one per completed cycle (each performed
after that cycle's links are all processed, independently of how many
links there are); the written counts are 1, 2, …, n, hence monotonically
non-decreasing; the written timestamps are the per-cycle clock values in
order, so they are non-decreasing in any order in which the clock is
non-decreasing; and the persisted heartbeat file ends as the last write. -/
theorem c3_heartbeat_once_per_cycle_monotone (envs : List CycleEnv)
    (st st' : SchedState) (c : Nat) (writes : List (Nat × Str))
    (r : Str → Str → Prop)
    (h : background_tracker envs st = .ok (st', c, writes))
    (hr : List.Chain' r (envs.map CycleEnv.pollTime)) :
    writes.length = envs.length ∧
    writes.map Prod.fst = List.range' 1 envs.length ∧
    List.Pairwise (· ≤ ·) (writes.map Prod.fst) ∧
    writes.map Prod.snd = envs.map CycleEnv.pollTime ∧
    List.Chain' r (writes.map Prod.snd) ∧
    st'.heartbeat = (match writes.getLast? with
      | some w => write_heartbeat w.1 w.2
      | none => st.heartbeat) := by
  obtain ⟨h1, h2, _, h4⟩ := run_cycles_spec envs 0 st st' c writes h
  refine ⟨?_, ?_, ?_, h2, ?_, h4⟩
  · have := congrArg List.length h1
    simpa using this
  · simpa using h1
  · rw [h1]
    exact (List.pairwise_lt_range' 1 envs.length).imp (fun hab => le_of_lt hab)
  · rw [h2]; exact hr

/-- Witness for C3 at a concrete one-cycle run from a fresh state. -/
theorem c3_witness :
    ([((1 : Nat), ("t").data)]).length = [demoEnv].length ∧
    ([((1 : Nat), ("t").data)]).map Prod.fst = List.range' 1 [demoEnv].length ∧
    List.Pairwise (· ≤ ·) (([((1 : Nat), ("t").data)]).map Prod.fst) ∧
    ([((1 : Nat), ("t").data)]).map Prod.snd = [demoEnv].map CycleEnv.pollTime ∧
    List.Chain' Eq (([((1 : Nat), ("t").data)]).map Prod.snd) ∧
    write_heartbeat 1 (("t").data) =
      (match ([((1 : Nat), ("t").data)]).getLast? with
        | some w => write_heartbeat w.1 w.2
        | none => demoState.heartbeat) :=
  c3_heartbeat_once_per_cycle_monotone [demoEnv] demoState _ 1 [(1, ("t").data)] Eq
    rfl (by simp)

/-- C10: the scheduler never reads the persisted heartbeat back — a run
from a given store and registry is identical whatever heartbeat file it
starts from — and since the in-memory counter starts at 0 on process
start, the first heartbeat written by a completed run records count 1,
regardless of any (possibly larger) previously persisted count. -/
theorem c10_restart_resets_count (envs : List CycleEnv) (e : CycleEnv) (store : Store)
    (hb1 hb2 lf : FileState) (st' : SchedState) (c : Nat) (writes : List (Nat × Str))
    (h : background_tracker (e :: envs) { store := store, heartbeat := hb1, linksFile := lf }
      = .ok (st', c, writes)) :
    background_tracker (e :: envs) { store := store, heartbeat := hb1, linksFile := lf }
      = background_tracker (e :: envs) { store := store, heartbeat := hb2, linksFile := lf } ∧
    writes.head? = some (1, e.pollTime) := by
  constructor
  · exact run_cycles_heartbeat_irrelevant e envs 0 store lf hb1 hb2
  · obtain ⟨h1, h2, _, _⟩ := run_cycles_spec (e :: envs) 0 _ st' c writes h
    cases writes with
    | nil => simp [List.range'] at h1
    | cons w ws =>
      cases w with
      | mk w1 w2 =>
        simp only [List.map_cons, List.length_cons] at h1 h2
        rw [List.range'_succ] at h1
        injection h1 with h1a _
        injection h2 with h2a _
        subst h1a; subst h2a
        rfl

/-- Witness for C10: a restart over a persisted heartbeat that records
five cycles; the run is the same as from a fresh state and its first
write records count 1. -/
theorem c10_witness :
    background_tracker [demoEnv] demoStateStale = background_tracker [demoEnv] demoState ∧
    ([((1 : Nat), ("t").data)]).head? = some (1, demoEnv.pollTime) :=
  c10_restart_resets_count [] demoEnv (fun _ => none)
    (.present [("5").data, ("x").data]) .absent .absent _ 1 [(1, ("t").data)] rfl

/-- C4, counterexample to the claim's header: the header a fresh event
file is created with capitalizes the two flag columns
(`Available_For_Call`, `On_Call`), so it is not the lowercase
`datetime, available_for_call, on_call` stated by the claim. -/
theorem c4_counterexample :
    (append_log [] false false none).header =
      [("datetime").data, ("Available_For_Call").data, ("On_Call").data] ∧
    [("datetime").data, ("Available_For_Call").data, ("On_Call").data] ≠
      [("datetime").data, ("available_for_call").data, ("on_call").data] :=
  ⟨rfl, by decide⟩

/-- C4, amended: one append adds exactly one record at the end of the
link's sequence — every previously stored record is preserved, in order —
and when the file does not yet exist the sequence is created with the
fixed column header `datetime, Available_For_Call, On_Call`; an existing
file keeps its header. -/
theorem c4_amended_append (now : Str) (cv jv : Bool) (file : Option CSV) :
    (append_log now cv jv file).rows =
      (match file with | some csv => csv.rows | none => []) ++
        [{ datetime := now
         , Available_For_Call := if cv then 1 else 0
         , On_Call := if jv then 1 else 0 }] ∧
    (append_log now cv jv file).header =
      (match file with
       | some csv => csv.header
       | none => [("datetime").data, ("Available_For_Call").data, ("On_Call").data]) := by
  cases file <;> exact ⟨rfl, rfl⟩

/-- C5: when the wait succeeds and the matching control elements are
found, the probe reports `available_for_call` exactly when some element's
stripped, lowercased label contains the substring "call", and `on_call`
exactly when some such label contains "join q" or "joinq" — a logical OR
across all matching elements in both cases. -/
theorem c5_label_match_semantics (labels : List Str) :
    ∃ p : Bool × Bool, track_once (.elements labels) = .ok (some p) ∧
      (p.1 = true ↔ ∃ t ∈ labels, ∃ l r, l ++ ("call").data ++ r = pyLower (pyStrip t)) ∧
      (p.2 = true ↔ ∃ t ∈ labels,
        (∃ l r, l ++ ("join q").data ++ r = pyLower (pyStrip t)) ∨
        (∃ l r, l ++ ("joinq").data ++ r = pyLower (pyStrip t))) := by
  refine ⟨_, rfl, ?_, ?_⟩
  · simp only [List.any_eq_true, isSubstr_iff]
  · simp only [List.any_eq_true, Bool.or_eq_true, isSubstr_iff]

/-- C6, counterexample: with the registry holding the single line
`http://a`, adding the padded string `http://a ` is not a no-op — the raw
input differs from every loaded entry, so one line is appended — yet the
appended line is the stripped form, so a subsequent load yields a
duplicated `http://a` and still does not contain the string that was
added. -/
theorem c6_counterexample :
    (("http://a ").data : Str) ∉ [("http://a").data] ∧
    add_link (("http://a ").data) (.present [("http://a").data]) =
      .ok (.present [("http://a").data, ("http://a").data]) ∧
    load_links (.present [("http://a").data, ("http://a").data]) =
      .ok [("http://a").data, ("http://a").data] ∧
    (("http://a ").data : Str) ∉ [("http://a").data, ("http://a").data] :=
  ⟨by decide, rfl, rfl, by decide⟩

/-- C6, amended: adding a string `u` already present verbatim in the
loaded list is a no-op leaving the backing file unchanged; adding a `u`
absent from the loaded list appends exactly one line, holding the trimmed
`u` (equal to `u` whenever `u` carries no surrounding whitespace), and a
subsequent load includes that trimmed `u`. -/
theorem c6_amended_add (u : Str) (f : FileState) (links : List Str)
    (hload : load_links f = .ok links) (hu : pyStrip u ≠ []) :
    (u ∈ links → add_link u f = .ok f) ∧
    (u ∉ links →
      add_link u f = .ok (.present (f.linesOrEmpty ++ [pyStrip u])) ∧
      (f.linesOrEmpty ++ [pyStrip u]).length = f.linesOrEmpty.length + 1 ∧
      load_links (.present (f.linesOrEmpty ++ [pyStrip u])) =
        .ok (((f.linesOrEmpty).map pyStrip).filter (fun l => !l.isEmpty) ++ [pyStrip u]) ∧
      pyStrip u ∈ ((f.linesOrEmpty).map pyStrip).filter (fun l => !l.isEmpty) ++ [pyStrip u]) := by
  constructor
  · intro hmem
    simp [add_link, hload, hmem]
  · intro hmem
    refine ⟨by simp [add_link, hload, hmem], by simp, ?_, by simp⟩
    simp [load_links, List.filter_append, pyStrip_idem, hu]

/-- Witness for C6: adding a new link to a one-line registry. -/
theorem c6_witness :
    ((("http://b").data : Str) ∈ [("http://a").data] →
      add_link (("http://b").data) (.present [("http://a").data]) =
        .ok (.present [("http://a").data])) ∧
    ((("http://b").data : Str) ∉ [("http://a").data] →
      add_link (("http://b").data) (.present [("http://a").data]) =
        .ok (.present ((FileState.present [("http://a").data]).linesOrEmpty ++
          [pyStrip (("http://b").data)])) ∧
      ((FileState.present [("http://a").data]).linesOrEmpty ++
        [pyStrip (("http://b").data)]).length =
        (FileState.present [("http://a").data]).linesOrEmpty.length + 1 ∧
      load_links (.present ((FileState.present [("http://a").data]).linesOrEmpty ++
          [pyStrip (("http://b").data)])) =
        .ok ((((FileState.present [("http://a").data]).linesOrEmpty).map pyStrip).filter
            (fun l => !l.isEmpty) ++ [pyStrip (("http://b").data)]) ∧
      pyStrip (("http://b").data) ∈
        (((FileState.present [("http://a").data]).linesOrEmpty).map pyStrip).filter
          (fun l => !l.isEmpty) ++ [pyStrip (("http://b").data)]) :=
  c6_amended_add (("http://b").data) (.present [("http://a").data]) [("http://a").data]
    rfl (by decide)

/-- C7, counterexample: when the registry file exists but cannot be
opened, `load_links` does not fall back to the default — the error
propagates to the caller (the scheduler reloads the registry each cycle
with no guard). -/
theorem c7_counterexample :
    load_links .unreadable = .error () ∧
    load_links .unreadable ≠ .ok [DEFAULT_LINK] :=
  ⟨rfl, fun h => Except.noConfusion h⟩

/-- C7, amended: a present, readable registry file loads in file order
with blank lines ignored (the result is an order-preserving sublist of
the stripped lines and contains every non-blank line's stripped form);
an absent file yields the single built-in default URL; but an existing
file that cannot be opened raises to the caller. -/
theorem c7_amended_load (lines pre post : List Str) (bl l : Str)
    (hbl : pyStrip bl = []) (hl : l ∈ lines) (hne : pyStrip l ≠ []) :
    load_links .absent = .ok [DEFAULT_LINK] ∧
    load_links .unreadable = .error () ∧
    load_links (.present (pre ++ bl :: post)) = load_links (.present (pre ++ post)) ∧
    ∃ res, load_links (.present lines) = .ok res ∧
      res.Sublist (lines.map pyStrip) ∧ pyStrip l ∈ res := by
  refine ⟨rfl, rfl, ?_, ?_⟩
  · simp [load_links, List.filter_append, hbl]
  · refine ⟨_, rfl, List.filter_sublist _, ?_⟩
    rw [List.mem_filter]
    exact ⟨List.mem_map_of_mem pyStrip hl, by simp [hne]⟩

/-- Witness for C7: a one-line registry plus a blank line. -/
theorem c7_witness :
    load_links .absent = .ok [DEFAULT_LINK] ∧
    load_links .unreadable = .error () ∧
    load_links (.present ([] ++ (" ").data :: [])) = load_links (.present ([] ++ [])) ∧
    ∃ res, load_links (.present [("a").data]) = .ok res ∧
      res.Sublist ([("a").data].map pyStrip) ∧ pyStrip (("a").data) ∈ res :=
  c7_amended_load [("a").data] [] [] ((" ").data) (("a").data)
    (by decide) (by decide) (by decide)

/-- C8, counterexample: when the heartbeat file exists but cannot be
opened, the read raises to the caller instead of returning `(0, absent)`
— `open` sits outside the `try` block. -/
theorem c8_counterexample :
    read_heartbeat .unreadable = .error () ∧
    read_heartbeat .unreadable ≠ .ok (0, none) :=
  ⟨rfl, fun h => Except.noConfusion h⟩

/-- C8, amended: the heartbeat read degrades to `(0, absent)` when the
file is absent, when it has fewer than two lines, or when its first line
does not parse as an integer, and it never raises on any readable file
state; but an existing file that cannot be opened raises to the caller. -/
theorem c8_amended_read (lines : List Str) (l0 l1 : Str) (rest : List Str) (f : FileState)
    (hshort : lines.length ≤ 1) (hbad : pyInt? l0 = none) (hf : f ≠ .unreadable) :
    read_heartbeat .absent = .ok (0, none) ∧
    read_heartbeat (.present lines) = .ok (0, none) ∧
    read_heartbeat (.present (l0 :: l1 :: rest)) = .ok (0, none) ∧
    ∃ res, read_heartbeat f = .ok res := by
  refine ⟨rfl, ?_, ?_, ?_⟩
  · cases lines with
    | nil => rfl
    | cons a t =>
      cases t with
      | nil => rfl
      | cons b t2 => exact absurd hshort (by simp)
  · simp [read_heartbeat, hbad]
  · cases f with
    | absent => exact ⟨(0, none), rfl⟩
    | unreadable => exact absurd rfl hf
    | present ls =>
      cases ls with
      | nil => exact ⟨(0, none), rfl⟩
      | cons a t =>
        cases t with
        | nil => exact ⟨(0, none), rfl⟩
        | cons b t2 =>
          cases hpi : pyInt? a with
          | none => exact ⟨(0, none), by simp [read_heartbeat, hpi]⟩
          | some n => exact ⟨(n, some (pyStrip b)), by simp [read_heartbeat, hpi]⟩

/-- Witness for C8: an empty heartbeat file, an unparsable count line,
and the absent state. -/
theorem c8_witness :
    read_heartbeat .absent = .ok (0, none) ∧
    read_heartbeat (.present []) = .ok (0, none) ∧
    read_heartbeat (.present (("x").data :: [] :: [])) = .ok (0, none) ∧
    ∃ res, read_heartbeat .absent = .ok res :=
  c8_amended_read [] (("x").data) [] [] .absent (by decide) (by decide) (by decide)

/-- C9, counterexample: the URL-to-filename encoding collides on two
distinct well-formed URLs — `http://a/b` and `http://a_b` are mapped to
the same file `http_a_b.csv`, so the two links would share one event
file. -/
theorem c9_counterexample :
    safe_filename (("http://a/b").data) = safe_filename (("http://a_b").data) ∧
    (("http://a/b").data : Str) ≠ (("http://a_b").data : Str) :=
  ⟨by decide, by decide⟩

/-- C9, amended: the encoding is injective on URLs of the shape
`scheme://rest` in which the scheme part contains no colon, slash or
underscore and the rest contains no colon and no underscore: two distinct
such URLs always receive distinct event files. -/
theorem c9_amended_injective (s1 r1 s2 r2 : Str)
    (hs1 : ∀ c ∈ s1, c ≠ ':' ∧ c ≠ '/' ∧ c ≠ '_')
    (hr1 : ∀ c ∈ r1, c ≠ ':' ∧ c ≠ '_')
    (hs2 : ∀ c ∈ s2, c ≠ ':' ∧ c ≠ '/' ∧ c ≠ '_')
    (hr2 : ∀ c ∈ r2, c ≠ ':' ∧ c ≠ '_')
    (hne : s1 ++ ("://").data ++ r1 ≠ s2 ++ ("://").data ++ r2) :
    safe_filename (s1 ++ ("://").data ++ r1) ≠ safe_filename (s2 ++ ("://").data ++ r2) := by
  intro h
  apply hne
  rw [safe_filename_split s1 r1 hs1 (fun c hc => (hr1 c hc).1),
    safe_filename_split s2 r2 hs2 (fun c hc => (hr2 c hc).1)] at h
  have h2 : s1 ++ '_' :: r1.map subSlash = s2 ++ '_' :: r2.map subSlash :=
    List.append_cancel_right h
  obtain ⟨hs, hm⟩ := split_at_underscore s1 s2 _ _
    (fun c hc => (hs1 c hc).2.2) (fun c hc => (hs2 c hc).2.2) h2
  have hr : r1 = r2 := map_subSlash_inj r1 r2
    (fun c hc => (hr1 c hc).2) (fun c hc => (hr2 c hc).2) hm
  rw [hs, hr]

/-- Witness for C9: two well-formed URLs differing in their last path
segment receive different event files. -/
theorem c9_witness :
    safe_filename ((("http").data) ++ ("://").data ++ (("a").data)) ≠
      safe_filename ((("http").data) ++ ("://").data ++ (("b").data)) :=
  c9_amended_injective (("http").data) (("a").data) (("http").data) (("b").data)
    (by decide) (by decide) (by decide) (by decide) (by decide)
